import Mathlib

/-!
# Verification of the jishaku debugging cog

A shallow embedding of the state- and data-handling logic of
`jishaku/cog.py` and `jishaku/modules.py`, with theorems settling the
specification claims about scope retention, the task registry,
extension resolution, pagination thresholds, resource-error handling,
the owner check, batch extension loading and the REPL reply path.

Code of the repository that lives outside the two provided files
(the `jishaku.repl` Scope type and the paginator page-splitting logic)
is modelled from the specification's description, and is marked as
such in the corresponding doc comments.
-/

namespace Jishaku

/-! ## Scope model (C1, C2)

`Scope` (from `jishaku.repl`) is not among the provided source files.
Modelled from the spec: "a mutable mapping from identifier to value,
representing REPL-retained state."  We represent the mapping as an
association list from names to opaque values (`Nat` stands in for
arbitrary Python objects); lookup finds the most recent binding. -/

/-- Modelled from the spec: a Scope is a mutable mapping from identifier
to value.  Represented as an association list; `jishaku.repl.Scope` itself
is not among the provided sources. -/
abbrev ScopeMap : Type := List (String × Nat)

/-- The empty mapping: what the `Scope()` constructor produces. -/
def ScopeMap.empty : ScopeMap := []

/-- Look up a name in the scope (most recent binding first). -/
def ScopeMap.lookup (s : ScopeMap) (k : String) : Option Nat :=
  List.lookup k s

/-- Bind a name in the scope (shadows any earlier binding). -/
def ScopeMap.insert (s : ScopeMap) (k : String) (v : Nat) : ScopeMap :=
  (k, v) :: s

/-- The keys of a scope / argument mapping. -/
def ScopeMap.keys (s : ScopeMap) : List String :=
  s.map Prod.fst

/-- Modelled from the spec: after each REPL run the scope is "explicitly
cleared of just the injected context variables" (`Scope.clear_intersection`
of `jishaku.repl`, not among the provided sources): every binding whose
name is a key of the injected mapping is removed, all others are kept. -/
def ScopeMap.clear_intersection (s : ScopeMap) (argDict : ScopeMap) : ScopeMap :=
  s.filter (fun p => !(argDict.keys.contains p.1))

/-! ## Cog scope state and the retain toggle (C1)

From `Jishaku.__init__` (cog.py lines 74-84): the cog holds `_scope`
(initially `Scope()`) and `retain` (initially from the environment).
From the `scope` property (cog.py lines 86-97): if retention is on the
property returns the stored `_scope`, otherwise a brand new `Scope()`.
From `jsk_retain` (cog.py lines 573-599): turning retention on when it
was off resets `_scope` to a fresh `Scope()` and sets the flag; turning
it off just clears the flag; a toggle to the current value changes
nothing. -/

/-- The scope-relevant state of the `Jishaku` cog: the retention flag and
the contents of the internal `_scope`. -/
structure CogState where
  retain : Bool
  scopeMap : ScopeMap
deriving DecidableEq

/-- `Jishaku.scope` (cog.py lines 86-97): the retained `_scope` when
`retain` is set, a freshly constructed empty `Scope()` otherwise. -/
def CogState.scope (st : CogState) : ScopeMap :=
  if st.retain then st.scopeMap else ScopeMap.empty

/-- Events affecting the cog's scope state: a REPL invocation whose user
code transforms the scope it was handed (`jsk py` / `jsk py_inspect`
mutate the object returned by the `scope` property), or a
`jsk retain <toggle>` command. -/
inductive CogOp where
  | invoke (f : ScopeMap → ScopeMap)
  | retainSet (b : Bool)

/-- One step of the cog's scope state.

An `invoke f` mutates the object returned by the `scope` property: when
retention is on that is `_scope` itself, so the mutation persists; when
retention is off it is a fresh `Scope()` that is dropped when the
invocation completes, so the cog state is unchanged.

`retainSet b` is `jsk_retain` (cog.py lines 573-599): enabling retention
when it was off installs a fresh empty `_scope`; disabling it only
clears the flag; re-asserting the current value is a no-op. -/
def CogState.step (st : CogState) : CogOp → CogState
  | .invoke f =>
    if st.retain then ⟨true, f st.scopeMap⟩ else st
  | .retainSet b =>
    if b then
      if st.retain then st else ⟨true, ScopeMap.empty⟩
    else
      if st.retain then ⟨false, st.scopeMap⟩ else st

/-- Run a sequence of operations. -/
def CogState.run (st : CogState) : List CogOp → CogState
  | [] => st
  | op :: ops => (st.step op).run ops

/-- The sequence of scopes handed to successive REPL invocations along a
run: before each operation, the value of the `scope` property. -/
def CogState.scopeTrace (st : CogState) : List CogOp → List ScopeMap
  | [] => [st.scope]
  | op :: ops => st.scope :: (st.step op).scopeTrace ops

/-! ## REPL invocation scope lifecycle (C2)

From `jsk_python` (cog.py lines 601-648) and `jsk_python_inspect`
(cog.py lines 650-681): both build
`arg_dict = get_var_dict_from_ctx(ctx, self.SCOPE_PREFIX)` followed by
`arg_dict["_"] = self.last_result`, run the executor over the chosen
scope inside `try:`, and in the `finally:` block call
`scope.clear_intersection(arg_dict)` — on normal completion and on an
exception alike. -/

/-- The `arg_dict` built at the top of `jsk_python` /
`jsk_python_inspect`: the context variables from
`get_var_dict_from_ctx` (abstracted, since `jishaku.repl` is not among
the provided sources), with the last-result binding `"_"` added. -/
def mkArgDict (ctxVars : ScopeMap) (lastResult : Nat) : ScopeMap :=
  ctxVars.insert "_" lastResult

/-- The outcome of running the user's code: the scope contents when the
executor stopped, either by finishing normally or by raising. -/
inductive ExecOutcome where
  | ok (finalScope : ScopeMap)
  | raised (partialScope : ScopeMap)

/-- The scope contents at the moment the `finally` block runs. -/
def ExecOutcome.scopeAtExit : ExecOutcome → ScopeMap
  | .ok s => s
  | .raised s => s

/-- The scope left behind by one `jsk py` invocation (cog.py lines
601-648): the executor (abstracted as `ex`, receiving the scope and the
injected `arg_dict`) runs to some outcome, and the `finally` block
applies `clear_intersection` with the `arg_dict` to whatever scope
state the executor left, regardless of the outcome kind. -/
def jsk_python_scope_after (scope ctxVars : ScopeMap) (lastResult : Nat)
    (ex : ScopeMap → ScopeMap → ExecOutcome) : ScopeMap :=
  let argDict := mkArgDict ctxVars lastResult
  (ex scope argDict).scopeAtExit.clear_intersection argDict

/-- The scope left behind by one `jsk py_inspect` invocation (cog.py
lines 650-681); the scope handling is identical to `jsk_python`. -/
def jsk_python_inspect_scope_after (scope ctxVars : ScopeMap) (lastResult : Nat)
    (ex : ScopeMap → ScopeMap → ExecOutcome) : ScopeMap :=
  let argDict := mkArgDict ctxVars lastResult
  (ex scope argDict).scopeAtExit.clear_intersection argDict

/-! ## Task registry (C3, C4)

From cog.py: `CommandTask = collections.namedtuple("CommandTask", "index ctx task")`
(line 64); the cog holds `self.tasks = collections.deque()` and
`self.task_count = 0` (lines 80-81).  `Jishaku.submit` (lines 99-119)
increments `task_count`, appends `CommandTask(self.task_count, ctx, ...)`,
and in its `finally` removes the entry if still present — on normal
completion, exception, or cancellation alike.  The `ctx` and `task`
fields are opaque host objects, represented by a `Nat` identifier. -/

/-- `CommandTask` (cog.py line 64); the opaque `ctx`/`task` fields are
collapsed into one identifier, `index` is the registry index. -/
structure CommandTask where
  index : Nat
  ctxId : Nat
deriving DecidableEq, Repr

/-- The registry state: `self.task_count` and `self.tasks` (cog.py
lines 80-81); the deque is represented as a list, append at the right. -/
structure Registry where
  task_count : Nat
  tasks : List CommandTask
deriving DecidableEq, Repr

/-- The registry at cog construction (cog.py lines 80-81). -/
def Registry.init : Registry := ⟨0, []⟩

/-- The entry part of `Jishaku.submit` (cog.py lines 111-113):
increment `task_count`, build the `CommandTask`, append it. -/
def Registry.submit (r : Registry) (ctxId : Nat) : CommandTask × Registry :=
  let cmdtask : CommandTask := ⟨r.task_count + 1, ctxId⟩
  (cmdtask, ⟨r.task_count + 1, r.tasks ++ [cmdtask]⟩)

/-- The `finally` part of `Jishaku.submit` (cog.py lines 117-119): if
the task is still present, remove its (first) occurrence. -/
def Registry.release (r : Registry) (t : CommandTask) : Registry :=
  if t ∈ r.tasks then ⟨r.task_count, r.tasks.erase t⟩ else r

/-- An event in the life of the registry: a command entering `submit`,
or an invocation exiting (by any path) and releasing its task. -/
inductive RegOp where
  | submit (ctxId : Nat)
  | release (t : CommandTask)

/-- One registry event. -/
def Registry.step (r : Registry) : RegOp → Registry
  | .submit c => (r.submit c).2
  | .release t => r.release t

/-- Run a sequence of registry events. -/
def Registry.run (r : Registry) : List RegOp → Registry
  | [] => r
  | op :: ops => (r.step op).run ops

/-- The indices assigned by the `submit` events of a run, in order. -/
def Registry.assignedAlong (r : Registry) : List RegOp → List Nat
  | [] => []
  | .submit c :: ops => (r.task_count + 1) :: (r.step (.submit c)).assignedAlong ops
  | .release t :: ops => (r.step (.release t)).assignedAlong ops

/-- The registry invariant: entries are listed in strictly increasing
index order (in particular no index occurs twice), and no entry's index
exceeds the counter. -/
def Registry.Inv (r : Registry) : Prop :=
  (r.tasks.map CommandTask.index).Pairwise (· < ·) ∧
  ∀ t ∈ r.tasks, t.index ≤ r.task_count

/-! ## Task cancellation (C4) -/

/-- The outcome of `jsk cancel` (cog.py lines 280-302): "No tasks to
cancel." when the registry is empty; otherwise either some task is
cancelled and removed, leaving `remaining` as the registry contents, or
no task matches the index and the reply is "Unknown task." with the
registry untouched (the code returns before any mutation). -/
inductive CancelOutcome where
  | noTasks
  | cancelled (t : CommandTask) (remaining : List CommandTask)
  | unknown
deriving DecidableEq, Repr

/-- `Jishaku.jsk_cancel` (cog.py lines 280-302).  With a non-empty
deque: index `-1` pops the right end (the most recently appended entry)
and cancels it; any other index is looked up with
`discord.utils.get(self.tasks, index=index)` (first entry whose `index`
attribute equals the argument), which is removed and cancelled if
found, and reported as "Unknown task." otherwise. -/
def jsk_cancel (tasks : List CommandTask) (index : Int) : CancelOutcome :=
  match tasks.getLast? with
  | none => .noTasks
  | some last =>
    if index = -1 then .cancelled last tasks.dropLast
    else
      match tasks.find? (fun t => (t.index : Int) == index) with
      | some t => .cancelled t (tasks.erase t)
      | none => .unknown

/-! ## Python string primitives

Executable models of the Python `str` builtins the source uses
(`str.endswith`, slicing `[:-2]`, `str.split('.')`, `'.'.join`,
`str.strip`, `str.replace`), defined over the character list of the
string so that concrete instances evaluate. -/

/-- Python `name.endswith(suffix)`. -/
def pyEndsWith (s suffixStr : String) : Bool :=
  suffixStr.data.isSuffixOf s.data

/-- Python `name[:-n]` for `n ≥ 1`: drop the last `n` characters. -/
def pyDropRight (s : String) (n : Nat) : String :=
  ⟨s.data.take (s.data.length - n)⟩

/-- Split a character list on a separator character; Python
`split(sep)` semantics (the empty string yields one empty field). -/
def splitOnCharList (c : Char) : List Char → List (List Char)
  | [] => [[]]
  | a :: rest =>
    let r := splitOnCharList c rest
    if a = c then [] :: r
    else
      match r with
      | [] => [[a]]
      | x :: xs => (a :: x) :: xs

/-- Python `name.split('.')`. -/
def pySplitOnDot (s : String) : List String :=
  (splitOnCharList '.' s.data).map String.mk

/-- Python `'.'.join(parts)`. -/
def pyJoinDot : List String → String
  | [] => ""
  | p :: rest => rest.foldl (fun acc q => acc ++ "." ++ q) p

/-! ## Extension resolver (C5)

From `jishaku/modules.py`: `find_extensions_in` (lines 23-51) lists the
things that look like extensions directly inside a directory, and
`resolve_extensions` (lines 54-71) expands a name pattern. -/

/-- The directly contained extension candidates of one directory:
the stems of the `*.py` entries (`path.glob('*.py')` with the suffix
removed) and the names of the child directories holding an
`__init__.py` (`path.glob('*/__init__.py')`, taking the parent). -/
structure FSDir where
  pyFiles : List String
  initSubdirs : List String
deriving DecidableEq

/-- An abstract filesystem: maps a path (component list) to its
directory listing, or `none` when no such directory exists. -/
def FS : Type := List String → Option FSDir

/-- `pathlib` renders a glob result rooted at the current directory
without a leading `'.'` part; the source's `if parts[0] == '.':`
defensive strip (modules.py lines 38-39, 46-47). -/
def stripCurDir : List String → List String
  | "." :: rest => rest
  | parts => parts

/-- `find_extensions_in` (modules.py lines 23-51): an absent (or
non-directory) path yields `[]`; otherwise each `*.py` stem and each
`__init__.py`-bearing subdirectory found directly inside becomes the
dot-joined module name of its full path. -/
def find_extensions_in (fs : FS) (path : List String) : List String :=
  match fs path with
  | none => []
  | some d =>
    d.pyFiles.map (fun n => pyJoinDot (stripCurDir (path ++ [n]))) ++
      d.initSubdirs.map (fun n => pyJoinDot (stripCurDir (path ++ [n])))

/-- `resolve_extensions` (modules.py lines 54-71): a trailing `".*"`
resolves through `find_extensions_in` over the path built from the
dot-separated prefix; the marker `"~"` resolves to the currently loaded
extensions (`bot.extensions.keys()`); anything else is a literal
singleton. -/
def resolve_extensions (fs : FS) (loadedExts : List String) (name : String) :
    List String :=
  if pyEndsWith name ".*" then
    find_extensions_in fs (pySplitOnDot (pyDropRight name 2))
  else if name = "~" then loadedExts
  else [name]

/-- The spec's worked example: a directory `pkg` containing `a.py`,
`b.py` and `c/__init__.py`, and nothing else. -/
def exampleFS : FS := fun p =>
  if p = ["pkg"] then some ⟨["a", "b"], ["c"]⟩ else none

/-! ## Paginator constructions and page splitting (C6)

Every construction of a `commands.Paginator`, `WrappedPaginator` or
`WrappedFilePaginator` in cog.py that renders command output, with the
prefix, suffix and `max_size` passed at the call site.  The paginator
classes themselves live in `discord.ext.commands` and
`jishaku.paginators` (the latter of this repository but not among the
provided sources); their constructor defaults — prefix and suffix of
three backticks, `max_size` 2000 — and their page-splitting behaviour
are modelled from the spec. -/

/-- The arguments a paginator is constructed with. -/
structure PaginatorSpec where
  pref : String
  suff : String
  maxSize : Nat
deriving DecidableEq, Repr

/-- cog.py line 271, `jsk_tasks`: `commands.Paginator(max_size=1985)`. -/
def jsk_tasks_paginator : PaginatorSpec := ⟨"```", "```", 1985⟩

/-- cog.py line 314, `jsk_load`: `WrappedPaginator(prefix='', suffix='')`. -/
def jsk_load_paginator : PaginatorSpec := ⟨"", "", 2000⟩

/-- cog.py line 346, `jsk_unload`: `WrappedPaginator(prefix='', suffix='')`. -/
def jsk_unload_paginator : PaginatorSpec := ⟨"", "", 2000⟩

/-- cog.py line 502, `jsk_cat`: `WrappedFilePaginator(file, ..., max_size=1985)`. -/
def jsk_cat_paginator : PaginatorSpec := ⟨"```", "```", 1985⟩

/-- cog.py line 536, `jsk_curl`: `WrappedFilePaginator(..., max_size=1985)`. -/
def jsk_curl_paginator : PaginatorSpec := ⟨"```", "```", 1985⟩

/-- cog.py line 563, `jsk_source`:
`WrappedPaginator(prefix='```py', suffix='```', max_size=1985)`. -/
def jsk_source_paginator : PaginatorSpec := ⟨"```py", "```", 1985⟩

/-- cog.py line 636, `jsk_python` (oversized text results):
`WrappedPaginator(prefix='```py', suffix='```', max_size=1985)`. -/
def jsk_python_paginator : PaginatorSpec := ⟨"```py", "```", 1985⟩

/-- cog.py line 673, `jsk_python_inspect`:
`WrappedPaginator(prefix=f"...{header}...", max_size=1985)`; the prefix
depends on the inspected value's header. -/
def jsk_python_inspect_paginator (header : String) : PaginatorSpec :=
  ⟨"```prolog\n=== " ++ header ++ " ===\n", "```", 1985⟩

/-- cog.py line 695, `jsk_shell`:
`WrappedPaginator(prefix="```sh", max_size=1500)`. -/
def jsk_shell_paginator : PaginatorSpec := ⟨"```sh", "```", 1500⟩

/-- cog.py line 744, `jsk_vc_clients`: `commands.Paginator()`. -/
def jsk_vc_clients_paginator : PaginatorSpec := ⟨"```", "```", 2000⟩

/-- Every paginator the cog constructs to render command output
(`header` is the dynamic header of the `py_inspect` prefix). -/
def cogPaginators (header : String) : List PaginatorSpec :=
  [jsk_tasks_paginator, jsk_load_paginator, jsk_unload_paginator,
    jsk_cat_paginator, jsk_curl_paginator, jsk_source_paginator,
    jsk_python_paginator, jsk_python_inspect_paginator header,
    jsk_shell_paginator, jsk_vc_clients_paginator]

/-- The size of a page: the total length of its lines. -/
def pageLen (page : List String) : Nat := (page.map String.length).sum

/-- Modelled from the spec: the paginator accumulates added lines into
the current page and rolls over to a new page when the page would grow
past the size threshold; lines are never broken across pages.
(`jishaku.paginators` / `commands.Paginator.add_line` are not among the
provided sources.) -/
def paginateAux (maxSize : Nat) (cur : List String) :
    List String → List (List String)
  | [] => [cur]
  | l :: ls =>
    if maxSize < pageLen cur + l.length then
      cur :: paginateAux maxSize [l] ls
    else
      paginateAux maxSize (cur ++ [l]) ls

/-- Modelled from the spec: split a sequence of added lines into pages
of at most `maxSize` units, at line boundaries. -/
def paginateLines (maxSize : Nat) : List String → List (List String)
  | [] => []
  | l :: ls => paginateAux maxSize [l] ls

/-! ## File and URL display commands (C7)

`jsk_cat` (cog.py lines 467-509) and `jsk_curl` (cog.py lines 511-543).
The filesystem stat, HTTP response and the `WrappedFilePaginator`
constructor (which raises `UnicodeDecodeError` when no encoding can be
determined, per the spec's "refuses if no encoding can be determined")
are external inputs, abstracted as parameters. -/

/-- How constructing the `WrappedFilePaginator` over the content went:
it decoded, it raised `UnicodeDecodeError`, or it raised `ValueError`
with a message. -/
inductive DecodeResult where
  | decoded
  | unicodeError
  | valueError (msg : String)
deriving DecidableEq, Repr

/-- The reply of `jsk cat` (cog.py lines 467-509), in source order:
missing-or-directory path, refusing a non-positive size stat, refusing
a file over 50 MB, refusing an undecodable file, a read error, or
presenting the paginator interface. -/
inductive CatOutcome where
  | noFile
  | noSizeRefused
  | tooLargeRefused
  | encodingRefused
  | readError (msg : String)
  | paginated
deriving DecidableEq, Repr

/-- `Jishaku.jsk_cat` (cog.py lines 467-509) after path parsing:
`pathExists`/`isDir` are the `os.path` checks, `size` the stat, and
`decode` the result of building the `WrappedFilePaginator`. -/
def jsk_cat (pathExists isDir : Bool) (size : Int) (decode : DecodeResult) :
    CatOutcome :=
  if !pathExists || isDir then .noFile
  else if size ≤ 0 then .noSizeRefused
  else if size > 50 * 1024 ^ 2 then .tooLargeRefused
  else
    match decode with
    | .unicodeError => .encodingRefused
    | .valueError msg => .readError msg
    | .decoded => .paginated

/-- The reply of `jsk curl` (cog.py lines 511-543) after the HTTP
request: empty body, undecodable body, read error, or the paginator
interface. -/
inductive CurlOutcome where
  | emptyRefused
  | encodingRefused
  | readError (msg : String)
  | paginated
deriving DecidableEq, Repr

/-- `Jishaku.jsk_curl` (cog.py lines 511-543) after the request:
`data` is the response body (bytes) and `decode` the result of building
the `WrappedFilePaginator` over it. -/
def jsk_curl (data : List UInt8) (decode : DecodeResult) : CurlOutcome :=
  if data = [] then .emptyRefused
  else
    match decode with
    | .unicodeError => .encodingRefused
    | .valueError msg => .readError msg
    | .decoded => .paginated

/-! ## Owner check (C8) -/

/-- `Jishaku.cog_check` (cog.py lines 121-128): raises
`commands.NotOwner("You must own this bot to use Jishaku.")` when the
invoker does not own the bot, returns `True` otherwise.  Raising is
modelled with `Except`. -/
def cog_check (isOwner : Bool) : Except String Bool :=
  if !isOwner then .error "You must own this bot to use Jishaku."
  else .ok true

/-- Modelled from the spec: the host framework evaluates the cog-level
check before any subcommand body and runs the body only when the check
succeeds ("Permission failure (non-owner invocation) is a hard
rejection at the router boundary before any subcommand logic runs");
the dispatch machinery itself is discord.py's, outside this
repository. -/
def dispatchWithCheck {α : Type} (isOwner : Bool) (body : Except String α) :
    Except String α :=
  match cog_check isOwner with
  | .error e => .error e
  | .ok _ => body

/-! ## Batch extension loading (C9)

`jsk_load` (cog.py lines 305-336) and `jsk_unload` (cog.py lines
338-363): each flattened extension name is attempted inside its own
`try`/`except`, contributing one success line or one failure line
(carrying the formatted traceback) to a single `WrappedPaginator`; the
per-item exception is consumed by the `except` arm, never propagated.
The host `load`/`reload`/`unload` calls are abstracted as an `attempt`
function returning `none` on success or `some traceback` on failure. -/

/-- The icon for reloading an already-loaded extension (cog.py 318). -/
def reloadIcon : String := "🔃"

/-- The icon for loading a new extension (cog.py 320). -/
def inboxIcon : String := "📥"

/-- The icon for unloading an extension (cog.py 347). -/
def outboxIcon : String := "📤"

/-- A success report line (cog.py 333, 360): icon and backticked name. -/
def loadSuccessLine (icon ext : String) : String :=
  icon ++ " `" ++ ext ++ "`"

/-- A failure report line (cog.py 328-331, 355-358): icon, warning
sign, backticked name, and the formatted traceback in a code block. -/
def loadFailLine (icon ext tb : String) : String :=
  icon ++ "⚠ `" ++ ext ++ "`\n```py\n" ++ tb ++ "\n```"

/-- The loop of `jsk_load` (cog.py lines 316-333), threading the set of
currently loaded extensions: a loaded name is reloaded (reload icon), a
new one loaded (inbox icon); a failing attempt contributes a failure
line and leaves the loaded set unchanged, a successful load adds the
name.  Returns the report lines and the final loaded set. -/
def jsk_load_go (attempt : Bool → String → Option String) :
    List String → List String → List String × List String
  | loaded, [] => ([], loaded)
  | loaded, ext :: rest =>
    let isReload := loaded.contains ext
    let icon := if isReload then reloadIcon else inboxIcon
    match attempt isReload ext with
    | some tb =>
      let r := jsk_load_go attempt loaded rest
      (loadFailLine icon ext tb :: r.1, r.2)
    | none =>
      let loaded' := if isReload then loaded else ext :: loaded
      let r := jsk_load_go attempt loaded' rest
      (loadSuccessLine icon ext :: r.1, r.2)

/-- `Jishaku.jsk_load` (cog.py lines 305-336): the converter results
are flattened with `itertools.chain(*extensions)` and each name is
attempted in turn; the aggregated report lines are returned. -/
def jsk_load (attempt : Bool → String → Option String)
    (loaded : List String) (extensions : List (List String)) : List String :=
  (jsk_load_go attempt loaded extensions.flatten).1

/-- The loop of `jsk_unload` (cog.py lines 349-360). -/
def jsk_unload_go (attempt : String → Option String) :
    List String → List String
  | [] => []
  | ext :: rest =>
    match attempt ext with
    | some tb => loadFailLine outboxIcon ext tb :: jsk_unload_go attempt rest
    | none => loadSuccessLine outboxIcon ext :: jsk_unload_go attempt rest

/-- `Jishaku.jsk_unload` (cog.py lines 338-363). -/
def jsk_unload (attempt : String → Option String)
    (extensions : List (List String)) : List String :=
  jsk_unload_go attempt extensions.flatten

/-! ## The plain-text reply path of `jsk py` (C10)

cog.py lines 629-646: a non-string result is `repr`-ed; a result
longer than 2000 characters goes to a paginator; otherwise a result
that strips to the empty string is replaced by a single zero-width
space, and the message is sent with the bot's HTTP token replaced by
`"[NO_TOKEN]"` when the invocation happened in a guild, and verbatim
otherwise. -/

/-- Python `str.strip()`'s whitespace: the characters for which
`str.isspace()` holds — ASCII whitespace and the file/group/record/unit
separators, next-line, no-break space, ogham space mark, the en-quad
through hair-space range, line and paragraph separators, narrow
no-break space, medium mathematical space and ideographic space. -/
def pyIsSpace (c : Char) : Bool :=
  c = ' ' || c = '\t' || c = '\n' || c = '\r' || c = '\x0b' || c = '\x0c' ||
  c = '\x1c' || c = '\x1d' || c = '\x1e' || c = '\x1f' || c = '\x85' ||
  c = '\xa0' || c = '\u1680' ||
  ('\u2000'.val ≤ c.val && c.val ≤ '\u200a'.val) ||
  c = '\u2028' || c = '\u2029' || c = '\u202f' || c = '\u205f' ||
  c = '\u3000'

/-- Python `result.strip()`. -/
def pyStrip (s : String) : String :=
  ⟨((s.data.dropWhile pyIsSpace).reverse.dropWhile pyIsSpace).reverse⟩

/-- Python `str.replace` over character lists: replace each
non-overlapping occurrence of `pat`, scanning left to right.  The fuel
is the length of the scanned list, which suffices for non-empty
patterns. -/
def pyReplaceAux (pat rep : List Char) : Nat → List Char → List Char
  | 0, s => s
  | fuel + 1, s =>
    if pat.isPrefixOf s then
      rep ++ pyReplaceAux pat rep fuel (s.drop pat.length)
    else
      match s with
      | [] => []
      | c :: cs => c :: pyReplaceAux pat rep fuel cs

/-- Python `s.replace(pat, rep)` (an empty pattern inserts the
replacement at every boundary, as Python does). -/
def pyStrReplace (s pat rep : String) : String :=
  if pat.data = [] then
    ⟨rep.data ++ s.data.flatMap (fun c => c :: rep.data)⟩
  else
    ⟨pyReplaceAux pat.data rep.data s.data.length s.data⟩

/-- What the reply path does with a (string) result. -/
inductive SendAction where
  | paginate (text : String)
  | message (text : String)
deriving DecidableEq, Repr

/-- The zero-width space sent for empty results (cog.py line 644). -/
def ZWSP : String := "​"

/-- The reply path of `jsk_python` for string results (cog.py lines
633-646): oversized results are paginated; otherwise a
whitespace-only result becomes a single zero-width space, and the text
is sent with the token replaced when invoked in a guild
(`result.replace(self.bot.http.token, "[NO_TOKEN]") if ctx.guild else
result`). -/
def jsk_python_render (token : String) (inGuild : Bool) (result : String) :
    SendAction :=
  if 2000 < result.length then .paginate result
  else
    let result := if pyStrip result = "" then ZWSP else result
    .message (if inGuild then pyStrReplace result token "[NO_TOKEN]" else result)

/-! ## Theorems -/

/-- Once retention is off, the retained `_scope` contents never influence
the scopes handed to later invocations: the scope trace from a
retention-off state does not depend on the stored map. -/
theorem CogState.scopeTrace_indep (ops : List CogOp) (m m' : ScopeMap) :
    CogState.scopeTrace ⟨false, m⟩ ops = CogState.scopeTrace ⟨false, m'⟩ ops := by
  induction ops generalizing m m' with
  | nil => simp [CogState.scopeTrace, CogState.scope]
  | cons op ops ih =>
    cases op with
    | invoke f =>
      simp only [CogState.scopeTrace, CogState.step, Bool.false_eq_true, if_false]
      exact congrArg _ (ih m m')
    | retainSet b =>
      cases b
      · simp only [CogState.scopeTrace, CogState.step, Bool.false_eq_true, if_false]
        exact congrArg _ (ih m m')
      · simp only [CogState.scopeTrace, CogState.step, CogState.scope,
          Bool.false_eq_true, if_false, if_true]

/-- `clear_intersection` removes exactly the bindings whose names are
keys of the injected mapping: lookups of injected keys become `none`,
all other lookups are unchanged. -/
theorem lookup_clear_intersection (s d : ScopeMap) (k : String) :
    (s.clear_intersection d).lookup k
      = if k ∈ d.keys then none else s.lookup k := by
  induction s with
  | nil =>
    simp [ScopeMap.clear_intersection, ScopeMap.lookup]
  | cons p t ih =>
    obtain ⟨a, v⟩ := p
    by_cases hak : k = a
    · subst hak
      by_cases hk : k ∈ d.keys
      · simp [ScopeMap.clear_intersection, ScopeMap.lookup, List.filter_cons, hk,
          List.lookup] at ih ⊢
        simpa [ScopeMap.clear_intersection, ScopeMap.lookup, hk] using ih
      · simp [ScopeMap.clear_intersection, ScopeMap.lookup, List.filter_cons, hk,
          List.lookup]
    · have hba : (k == a) = false := beq_false_of_ne hak
      by_cases ha : a ∈ d.keys
      · simp [ScopeMap.clear_intersection, ScopeMap.lookup, List.filter_cons, ha,
          List.lookup, hba] at ih ⊢
        exact ih
      · simp [ScopeMap.clear_intersection, ScopeMap.lookup, List.filter_cons, ha,
          List.lookup, hba] at ih ⊢
        exact ih

/-- The fresh registry satisfies the invariant. -/
theorem Registry.Inv.initial : Registry.init.Inv := by
  constructor <;> simp [Registry.init]

/-- A submit step leaves the counter one higher. -/
theorem Registry.task_count_step_submit (r : Registry) (c : Nat) :
    (r.step (.submit c)).task_count = r.task_count + 1 := rfl

/-- No step decreases the counter. -/
theorem Registry.task_count_le_step (r : Registry) (op : RegOp) :
    r.task_count ≤ (r.step op).task_count := by
  cases op with
  | submit c => exact Nat.le_succ _
  | release t =>
    by_cases h : t ∈ r.tasks <;> simp [Registry.step, Registry.release, h]

/-- Every step preserves the registry invariant. -/
theorem Registry.Inv.step {r : Registry} (hr : r.Inv) (op : RegOp) :
    (r.step op).Inv := by
  obtain ⟨hpw, hle⟩ := hr
  cases op with
  | submit c =>
    constructor
    · simp only [Registry.step, Registry.submit, List.map_append, List.map_cons,
        List.map_nil, List.pairwise_append]
      refine ⟨hpw, List.pairwise_singleton _ _, ?_⟩
      intro a ha b hb
      simp only [List.mem_singleton] at hb
      subst hb
      simp only [List.mem_map] at ha
      obtain ⟨t, ht, rfl⟩ := ha
      exact Nat.lt_succ_of_le (hle t ht)
    · intro t ht
      simp only [Registry.step, Registry.submit, List.mem_append,
        List.mem_singleton] at ht
      rcases ht with ht | rfl
      · exact Nat.le_succ_of_le (hle t ht)
      · exact Nat.le_refl _
  | release t =>
    by_cases h : t ∈ r.tasks
    · simp only [Registry.step, Registry.release, h, if_true]
      constructor
      · exact hpw.sublist ((r.tasks.erase_sublist t).map _)
      · intro u hu
        exact hle u (List.mem_of_mem_erase hu)
    · simpa [Registry.step, Registry.release, h] using ⟨hpw, hle⟩

/-- The invariant holds along every run from the initial registry. -/
theorem Registry.Inv.run (ops : List RegOp) :
    ∀ r : Registry, r.Inv → (r.run ops).Inv := by
  induction ops with
  | nil => exact fun r hr => hr
  | cons op ops ih => exact fun r hr => ih _ (hr.step op)

/-- Entries of a registry satisfying the invariant are pairwise
distinct. -/
theorem Registry.Inv.nodup {r : Registry} (hr : r.Inv) : r.tasks.Nodup :=
  List.Nodup.of_map CommandTask.index (hr.1.imp Nat.ne_of_lt)

/-- All indices assigned along a run exceed the starting counter. -/
theorem Registry.assignedAlong_gt (ops : List RegOp) :
    ∀ (r : Registry), ∀ x ∈ r.assignedAlong ops, r.task_count < x := by
  induction ops with
  | nil => intro r x hx; simp [Registry.assignedAlong] at hx
  | cons op ops ih =>
    intro r x hx
    cases op with
    | submit c =>
      simp only [Registry.assignedAlong, List.mem_cons] at hx
      rcases hx with rfl | hx
      · exact Nat.lt_succ_self _
      · have h1 := ih _ x hx
        have h2 := r.task_count_le_step (.submit c)
        omega
    | release t =>
      have h1 := ih _ x hx
      have h2 := r.task_count_le_step (.release t)
      omega

/-- The indices assigned along any run are strictly increasing: each
`submit` receives an index strictly greater than every index assigned
before it, so indices are never reused. -/
theorem Registry.assignedAlong_pairwise (ops : List RegOp) :
    ∀ r : Registry, (r.assignedAlong ops).Pairwise (· < ·) := by
  induction ops with
  | nil => intro r; simp [Registry.assignedAlong]
  | cons op ops ih =>
    intro r
    cases op with
    | submit c =>
      simp only [Registry.assignedAlong, List.pairwise_cons]
      refine ⟨?_, ih _⟩
      intro x hx
      have h := Registry.assignedAlong_gt ops (r.step (.submit c)) x hx
      rwa [Registry.task_count_step_submit] at h
    | release t => exact ih _

/-- Releasing a task from an invariant-satisfying registry removes it. -/
theorem Registry.not_mem_release {r : Registry} (hr : r.Inv) (t : CommandTask) :
    t ∉ (r.release t).tasks := by
  by_cases h : t ∈ r.tasks
  · simp only [Registry.release, h, if_true]
    exact hr.nodup.not_mem_erase
  · simp [Registry.release, h]

/-- C3: the task registry preserves its invariant under every
submit/release sequence.  Along any run from the initial registry the
assigned indices are strictly increasing (each `submit` gets a fresh
index strictly greater than every index assigned before; indices are
never reused), an in-flight task appears exactly once in the registry,
and releasing — which `submit`'s `finally` block performs on every exit
path: normal completion, exception, or cancellation — removes the
entry, so after `submit` followed by completion the task is absent. -/
theorem claim_C3 :
    (∀ ops : List RegOp, (Registry.init.run ops).Inv) ∧
    (∀ ops : List RegOp, (Registry.init.assignedAlong ops).Pairwise (· < ·)) ∧
    (∀ (ops : List RegOp) (t : CommandTask), t ∈ (Registry.init.run ops).tasks →
      (Registry.init.run ops).tasks.count t = 1) ∧
    (∀ (ops : List RegOp) (t : CommandTask),
      t ∉ ((Registry.init.run ops).release t).tasks) ∧
    (∀ (ops : List RegOp) (c : Nat),
      ((Registry.init.run ops).submit c).1 ∉
        ((((Registry.init.run ops).submit c).2).release
          (((Registry.init.run ops).submit c).1)).tasks) := by
  have hinv : ∀ ops : List RegOp, (Registry.init.run ops).Inv :=
    fun ops => Registry.Inv.run ops Registry.init Registry.Inv.initial
  refine ⟨hinv, fun ops => Registry.assignedAlong_pairwise ops Registry.init,
    ?_, ?_, ?_⟩
  · intro ops t ht
    exact List.count_eq_one_of_mem (hinv ops).nodup ht
  · intro ops t
    exact Registry.not_mem_release (hinv ops) t
  · intro ops c
    exact Registry.not_mem_release ((hinv ops).step (.submit c)) _

/-- Witness for C3 at a concrete run: two submissions and a release. -/
theorem claim_C3_witness :
    (Registry.init.run [.submit 5, .submit 6]).Inv ∧
    (Registry.init.assignedAlong
        [.submit 5, .release ⟨1, 5⟩, .submit 6]).Pairwise (· < ·) ∧
    (Registry.init.run [.submit 5, .submit 6]).tasks.count ⟨2, 6⟩ = 1 ∧
    (⟨1, 5⟩ : CommandTask) ∉
      ((Registry.init.run [.submit 5, .submit 6]).release ⟨1, 5⟩).tasks ∧
    ((Registry.init.run [.submit 5]).submit 6).1 ∉
      ((((Registry.init.run [.submit 5]).submit 6).2).release
        (((Registry.init.run [.submit 5]).submit 6).1)).tasks :=
  ⟨claim_C3.1 _, claim_C3.2.1 _,
    claim_C3.2.2.1 [.submit 5, .submit 6] ⟨2, 6⟩ (by decide),
    claim_C3.2.2.2.1 _ _, claim_C3.2.2.2.2 [.submit 5] 6⟩

/-- In a registry with distinct indices, `discord.utils.get` (first
entry with the given index) finds exactly the member task carrying that
index. -/
theorem find_task_by_index (i : Int) :
    ∀ (tasks : List CommandTask) (t : CommandTask),
      (tasks.map CommandTask.index).Nodup → t ∈ tasks → (t.index : Int) = i →
      tasks.find? (fun u => (u.index : Int) == i) = some t := by
  intro tasks
  induction tasks with
  | nil => intro t _ ht _; cases ht
  | cons u rest ih =>
    intro t hnd ht hi
    simp only [List.map_cons, List.nodup_cons] at hnd
    by_cases hu : ((u.index : Int) == i) = true
    · have hui : (u.index : Int) = i := eq_of_beq hu
      have hut : u = t := by
        rcases List.mem_cons.mp ht with rfl | htr
        · rfl
        · exfalso
          have hidx : u.index = t.index := by
            have hc : (u.index : Int) = (t.index : Int) := by rw [hui, hi]
            exact_mod_cast hc
          have hmem : t.index ∈ rest.map CommandTask.index :=
            List.mem_map_of_mem CommandTask.index htr
          rw [← hidx] at hmem
          exact hnd.1 hmem
      simp [List.find?, hut, hi]
    · have hne : u ≠ t := by
        intro he
        subst he
        exact hu (by simp [hi])
      rcases List.mem_cons.mp ht with rfl | htr
      · exact absurd rfl hne
      · have hu' : ((u.index : Int) == i) = false := by
          simpa using hu
        simp only [List.find?, hu']
        exact ih t hnd.2 htr hi

/-- In a registry listed in strictly increasing index order, every
entry before the last has a smaller index than the last: the right end
of the deque is the most recently submitted still-active task. -/
theorem last_index_max (tasks : List CommandTask) (last : CommandTask)
    (h : tasks.getLast? = some last)
    (hpw : (tasks.map CommandTask.index).Pairwise (· < ·)) :
    ∀ t ∈ tasks.dropLast, t.index < last.index := by
  intro t ht
  have heq := List.dropLast_append_getLast? last h
  rw [← heq, List.map_append, List.pairwise_append] at hpw
  exact hpw.2.2 t.index (List.mem_map_of_mem _ ht) last.index (by simp)

/-- C4: `jsk cancel` with a non-empty registry.  Index `-1` cancels and
removes the right end of the deque, which (for registries in increasing
index order, as every reachable registry is) is the most recently
submitted still-active task; any other index cancels and removes the
unique task with that index if present, leaving every other entry in
place; an index matching no task yields the "Unknown task." outcome,
with no task cancelled and the registry untouched. -/
theorem claim_C4 :
    (∀ (tasks : List CommandTask) (last : CommandTask),
      tasks.getLast? = some last →
      jsk_cancel tasks (-1) = .cancelled last tasks.dropLast ∧
      ((tasks.map CommandTask.index).Pairwise (· < ·) →
        ∀ t ∈ tasks.dropLast, t.index < last.index)) ∧
    (∀ (tasks : List CommandTask) (i : Int) (t : CommandTask),
      (tasks.map CommandTask.index).Pairwise (· < ·) →
      i ≠ -1 → t ∈ tasks → (t.index : Int) = i →
      jsk_cancel tasks i = .cancelled t (tasks.erase t) ∧
      t ∉ tasks.erase t ∧
      ∀ u ∈ tasks, u ≠ t → u ∈ tasks.erase t) ∧
    (∀ (tasks : List CommandTask) (i : Int),
      tasks ≠ [] → i ≠ -1 → (∀ t ∈ tasks, (t.index : Int) ≠ i) →
      jsk_cancel tasks i = .unknown) := by
  refine ⟨?_, ?_, ?_⟩
  · intro tasks last h
    refine ⟨by simp [jsk_cancel, h], fun hpw => last_index_max tasks last h hpw⟩
  · intro tasks i t hpw hi ht hit
    have hnd : (tasks.map CommandTask.index).Nodup := hpw.imp Nat.ne_of_lt
    have hndt : tasks.Nodup := List.Nodup.of_map CommandTask.index hnd
    obtain ⟨last, hlast⟩ : ∃ last, tasks.getLast? = some last := by
      cases hgl : tasks.getLast? with
      | none =>
        rw [List.getLast?_eq_none_iff] at hgl
        subst hgl
        cases ht
      | some last => exact ⟨last, rfl⟩
    refine ⟨?_, hndt.not_mem_erase, ?_⟩
    · simp only [jsk_cancel, hlast, hi, if_false]
      rw [find_task_by_index i tasks t hnd ht hit]
    · intro u hu hne
      exact (List.mem_erase_of_ne hne).mpr hu
  · intro tasks i hne hi hnone
    obtain ⟨last, hlast⟩ : ∃ last, tasks.getLast? = some last := by
      cases hgl : tasks.getLast? with
      | none =>
        rw [List.getLast?_eq_none_iff] at hgl
        exact absurd hgl hne
      | some last => exact ⟨last, rfl⟩
    have hfind : tasks.find? (fun u => (u.index : Int) == i) = none := by
      rw [List.find?_eq_none]
      intro u hu
      simpa using hnone u hu
    simp only [jsk_cancel, hlast, hi, if_false, hfind]

/-- Witness for C4 on a concrete three-task registry. -/
theorem claim_C4_witness :
    (jsk_cancel [⟨1, 0⟩, ⟨2, 0⟩, ⟨3, 0⟩] (-1)
        = .cancelled ⟨3, 0⟩ [⟨1, 0⟩, ⟨2, 0⟩]) ∧
    (∀ t ∈ ([⟨1, 0⟩, ⟨2, 0⟩, ⟨3, 0⟩] : List CommandTask).dropLast,
      t.index < (3 : Nat)) ∧
    jsk_cancel [⟨1, 0⟩, ⟨2, 0⟩, ⟨3, 0⟩] 2
      = .cancelled ⟨2, 0⟩ [⟨1, 0⟩, ⟨3, 0⟩] ∧
    jsk_cancel [⟨1, 0⟩, ⟨2, 0⟩, ⟨3, 0⟩] 7 = .unknown := by
  refine ⟨?_, ?_, ?_, ?_⟩
  · exact (claim_C4.1 [⟨1, 0⟩, ⟨2, 0⟩, ⟨3, 0⟩] ⟨3, 0⟩ (by decide)).1
  · exact (claim_C4.1 [⟨1, 0⟩, ⟨2, 0⟩, ⟨3, 0⟩] ⟨3, 0⟩ (by decide)).2
      (by decide)
  · have h := (claim_C4.2.1 [⟨1, 0⟩, ⟨2, 0⟩, ⟨3, 0⟩] 2 ⟨2, 0⟩
      (by decide) (by decide) (by decide) (by decide)).1
    simpa using h
  · exact claim_C4.2.2 [⟨1, 0⟩, ⟨2, 0⟩, ⟨3, 0⟩] 7 (by decide) (by decide)
      (by decide)

/-- C5: `resolve_extensions` maps a literal name to the singleton list
of exactly that name; a name with a trailing `".*"` segment to the
dot-joined names of every Python file and every `__init__.py`-bearing
package directory directly inside the corresponding directory (and to
the empty list, without raising, when that directory does not exist);
and the marker `"~"` to exactly the currently loaded extensions.  On
the spec's example — `"pkg.*"` over a directory holding `a.py`, `b.py`,
`c/__init__.py` — it yields `pkg.a`, `pkg.b`, `pkg.c`. -/
theorem claim_C5 :
    (∀ (fs : FS) (loadedExts : List String) (name : String),
      pyEndsWith name ".*" = false → name ≠ "~" →
      resolve_extensions fs loadedExts name = [name]) ∧
    (∀ (fs : FS) (loadedExts : List String),
      resolve_extensions fs loadedExts "~" = loadedExts) ∧
    (∀ (fs : FS) (loadedExts : List String) (name : String),
      pyEndsWith name ".*" = true →
      fs (pySplitOnDot (pyDropRight name 2)) = none →
      resolve_extensions fs loadedExts name = []) ∧
    (∀ (fs : FS) (loadedExts : List String) (name : String) (d : FSDir),
      pyEndsWith name ".*" = true →
      fs (pySplitOnDot (pyDropRight name 2)) = some d →
      ∀ m, m ∈ resolve_extensions fs loadedExts name ↔
        ∃ n, (n ∈ d.pyFiles ∨ n ∈ d.initSubdirs) ∧
          m = pyJoinDot (stripCurDir (pySplitOnDot (pyDropRight name 2) ++ [n]))) ∧
    (resolve_extensions exampleFS [] "pkg.*" = ["pkg.a", "pkg.b", "pkg.c"]) := by
  refine ⟨?_, ?_, ?_, ?_, by decide⟩
  · intro fs loadedExts name h1 h2
    simp [resolve_extensions, h1, h2]
  · intro fs loadedExts
    simp [resolve_extensions, (by decide : pyEndsWith "~" ".*" = false)]
  · intro fs loadedExts name h1 h2
    simp [resolve_extensions, find_extensions_in, h1, h2]
  · intro fs loadedExts name d h1 h2 m
    simp only [resolve_extensions, h1, if_true, find_extensions_in, h2,
      List.mem_append, List.mem_map]
    constructor
    · rintro (⟨n, hn, rfl⟩ | ⟨n, hn, rfl⟩)
      · exact ⟨n, Or.inl hn, rfl⟩
      · exact ⟨n, Or.inr hn, rfl⟩
    · rintro ⟨n, hn | hn, rfl⟩
      · exact Or.inl ⟨n, hn, rfl⟩
      · exact Or.inr ⟨n, hn, rfl⟩

/-- Witness for C5 at concrete patterns over the example directory. -/
theorem claim_C5_witness :
    resolve_extensions exampleFS [] "foo.bar" = ["foo.bar"] ∧
    resolve_extensions exampleFS ["x"] "~" = ["x"] ∧
    resolve_extensions exampleFS [] "nope.*" = [] ∧
    ("pkg.c" ∈ resolve_extensions exampleFS [] "pkg.*" ↔
      ∃ n, (n ∈ ["a", "b"] ∨ n ∈ ["c"]) ∧
        "pkg.c" = pyJoinDot (stripCurDir
          (pySplitOnDot (pyDropRight "pkg.*" 2) ++ [n]))) :=
  ⟨claim_C5.1 exampleFS [] "foo.bar" (by decide) (by decide),
    claim_C5.2.1 exampleFS ["x"],
    claim_C5.2.2.1 exampleFS [] "nope.*" (by decide) (by decide),
    claim_C5.2.2.2.1 exampleFS [] "pkg.*" ⟨["a", "b"], ["c"]⟩ (by decide)
      (by decide) "pkg.c"⟩

/-- Pagination loses no text and breaks no line: the concatenation of
the pages is exactly the added lines. -/
theorem paginateAux_flatten (maxSize : Nat) (ls : List String) :
    ∀ cur, (paginateAux maxSize cur ls).flatten = cur ++ ls := by
  induction ls with
  | nil => intro cur; simp [paginateAux]
  | cons l ls ih =>
    intro cur
    by_cases h : maxSize < pageLen cur + l.length
    · simp [paginateAux, h, ih]
    · simp [paginateAux, h, ih]

/-- `paginateLines` splits the added lines at line boundaries only. -/
theorem paginateLines_flatten (maxSize : Nat) (lines : List String) :
    (paginateLines maxSize lines).flatten = lines := by
  cases lines with
  | nil => rfl
  | cons l ls => simpa using paginateAux_flatten maxSize ls [l]

/-- If each line fits in a page, every produced page is within the
threshold. -/
theorem paginateAux_pages_le (maxSize : Nat) (ls : List String) :
    ∀ cur, pageLen cur ≤ maxSize → (∀ l ∈ ls, l.length ≤ maxSize) →
      ∀ page ∈ paginateAux maxSize cur ls, pageLen page ≤ maxSize := by
  induction ls with
  | nil =>
    intro cur hcur _ page hp
    simp only [paginateAux, List.mem_singleton] at hp
    exact hp ▸ hcur
  | cons l ls ih =>
    intro cur hcur hall page hp
    by_cases h : maxSize < pageLen cur + l.length
    · simp only [paginateAux, h, if_true, List.mem_cons] at hp
      rcases hp with rfl | hp
      · exact hcur
      · refine ih [l] ?_ (fun x hx => hall x (List.mem_cons_of_mem _ hx)) page hp
        simpa [pageLen] using hall l (List.mem_cons_self _ _)
    · simp only [paginateAux, h, if_false] at hp
      refine ih (cur ++ [l]) ?_ (fun x hx => hall x (List.mem_cons_of_mem _ hx))
        page hp
      have hle : pageLen cur + l.length ≤ maxSize := Nat.le_of_not_lt h
      simpa [pageLen, List.map_append] using hle

/-- Page-size bound for `paginateLines`. -/
theorem paginateLines_pages_le (maxSize : Nat) (lines : List String)
    (hall : ∀ l ∈ lines, l.length ≤ maxSize) :
    ∀ page ∈ paginateLines maxSize lines, pageLen page ≤ maxSize := by
  cases lines with
  | nil => intro page hp; simp [paginateLines] at hp
  | cons l ls =>
    exact paginateAux_pages_le maxSize ls [l]
      (by simpa [pageLen] using hall l (List.mem_cons_self _ _))
      (fun x hx => hall x (List.mem_cons_of_mem _ hx))

/-- Text longer than the threshold is split into at least two pages. -/
theorem paginateLines_two_pages (maxSize : Nat) (lines : List String)
    (hall : ∀ l ∈ lines, l.length ≤ maxSize)
    (htot : maxSize < (lines.map String.length).sum) :
    2 ≤ (paginateLines maxSize lines).length := by
  have hflat := paginateLines_flatten maxSize lines
  cases hp : paginateLines maxSize lines with
  | nil =>
    rw [hp] at hflat
    simp only [List.flatten_nil] at hflat
    rw [← hflat] at htot
    simp at htot
  | cons page rest =>
    cases rest with
    | nil =>
      exfalso
      rw [hp] at hflat
      simp only [List.flatten_cons, List.flatten_nil, List.append_nil] at hflat
      have hle : pageLen page ≤ maxSize :=
        paginateLines_pages_le maxSize lines hall page (hp ▸ List.mem_cons_self _ _)
      rw [← hflat] at htot
      simp only [pageLen] at hle
      omega
    | cons page2 rest2 => simp

/-- Counterexample to C6 as stated: the shell command's paginator
(cog.py line 695) is constructed with `max_size=1500`, outside the
claimed 1985-2000 range. -/
theorem claim_C6_counterexample :
    jsk_shell_paginator ∈ cogPaginators "" ∧
    jsk_shell_paginator.maxSize = 1500 ∧
    ¬ (1985 ≤ jsk_shell_paginator.maxSize ∧
        jsk_shell_paginator.maxSize ≤ 2000) := by
  decide

/-- C6 (amended): every paginator the cog constructs to render command
output uses a fixed page-size threshold of at most 2000 units — within
1985-2000 for every command except `jsk shell`, whose paginator uses
1500 — and text longer than the threshold in use is split at line
boundaries into multiple pages: pages concatenate back to exactly the
added lines, each page stays within the threshold whenever every
single line fits in a page, and text exceeding the threshold occupies
at least two pages. -/
theorem claim_C6 :
    (∀ header : String, ∀ p ∈ cogPaginators header, p.maxSize ≤ 2000) ∧
    (∀ header : String, ∀ p ∈ cogPaginators header,
      (1985 ≤ p.maxSize ∧ p.maxSize ≤ 2000) ∨ p = jsk_shell_paginator) ∧
    (∀ (maxSize : Nat) (lines : List String),
      (paginateLines maxSize lines).flatten = lines) ∧
    (∀ (maxSize : Nat) (lines : List String),
      (∀ l ∈ lines, l.length ≤ maxSize) →
      ∀ page ∈ paginateLines maxSize lines, pageLen page ≤ maxSize) ∧
    (∀ (maxSize : Nat) (lines : List String),
      (∀ l ∈ lines, l.length ≤ maxSize) →
      maxSize < (lines.map String.length).sum →
      2 ≤ (paginateLines maxSize lines).length) := by
  refine ⟨?_, ?_, paginateLines_flatten, paginateLines_pages_le,
    paginateLines_two_pages⟩
  · intro header p hp
    simp only [cogPaginators, List.mem_cons, List.not_mem_nil, or_false] at hp
    rcases hp with rfl | rfl | rfl | rfl | rfl | rfl | rfl | rfl | rfl | rfl <;>
      simp [jsk_tasks_paginator, jsk_load_paginator, jsk_unload_paginator,
        jsk_cat_paginator, jsk_curl_paginator, jsk_source_paginator,
        jsk_python_paginator, jsk_python_inspect_paginator,
        jsk_shell_paginator, jsk_vc_clients_paginator]
  · intro header p hp
    simp only [cogPaginators, List.mem_cons, List.not_mem_nil, or_false] at hp
    rcases hp with rfl | rfl | rfl | rfl | rfl | rfl | rfl | rfl | rfl | rfl <;>
      simp [jsk_tasks_paginator, jsk_load_paginator, jsk_unload_paginator,
        jsk_cat_paginator, jsk_curl_paginator, jsk_source_paginator,
        jsk_python_paginator, jsk_python_inspect_paginator,
        jsk_shell_paginator, jsk_vc_clients_paginator]

/-- Witness for C6 at a concrete paginator list and a concrete
two-line text exceeding the threshold. -/
theorem claim_C6_witness :
    (∀ p ∈ cogPaginators "hdr", p.maxSize ≤ 2000) ∧
    paginateLines 5 ["abc", "def"] = [["abc"], ["def"]] ∧
    (paginateLines 5 ["abc", "def"]).flatten = ["abc", "def"] ∧
    (∀ page ∈ paginateLines 5 ["abc", "def"], pageLen page ≤ 5) ∧
    2 ≤ (paginateLines 5 ["abc", "def"]).length :=
  ⟨claim_C6.1 "hdr", by decide, claim_C6.2.2.1 5 ["abc", "def"],
    claim_C6.2.2.2.1 5 ["abc", "def"] (by decide),
    claim_C6.2.2.2.2 5 ["abc", "def"] (by decide) (by decide)⟩

/-- C7: the file and URL display commands short-circuit on each
resource-error condition with its own distinct reply and no retry:
`jsk cat` refuses an existing file whose size stat is zero or negative,
refuses a file larger than 50 MB, and refuses a file whose encoding
cannot be determined; `jsk curl` refuses an empty HTTP response body
and a response whose encoding cannot be determined; and the paginator
interface is presented only when the path exists, the size is positive
and within bound, and decoding succeeded (respectively: the body is
non-empty and decoding succeeded) — so on every refusal no paginator
interface is presented. -/
theorem claim_C7 :
    (∀ (size : Int) (decode : DecodeResult), size ≤ 0 →
      jsk_cat true false size decode = .noSizeRefused) ∧
    (∀ (size : Int) (decode : DecodeResult), 50 * 1024 ^ 2 < size →
      jsk_cat true false size decode = .tooLargeRefused) ∧
    (∀ size : Int, 0 < size → size ≤ 50 * 1024 ^ 2 →
      jsk_cat true false size .unicodeError = .encodingRefused) ∧
    (∀ decode : DecodeResult, jsk_curl [] decode = .emptyRefused) ∧
    (∀ data : List UInt8, data ≠ [] →
      jsk_curl data .unicodeError = .encodingRefused) ∧
    (∀ (pathExists isDir : Bool) (size : Int) (decode : DecodeResult),
      jsk_cat pathExists isDir size decode = .paginated →
      pathExists = true ∧ isDir = false ∧ 0 < size ∧
        size ≤ 50 * 1024 ^ 2 ∧ decode = .decoded) ∧
    (∀ (data : List UInt8) (decode : DecodeResult),
      jsk_curl data decode = .paginated →
      data ≠ [] ∧ decode = .decoded) := by
  refine ⟨?_, ?_, ?_, ?_, ?_, ?_, ?_⟩
  · intro size decode h
    simp [jsk_cat, h]
  · intro size decode h
    have h0 : ¬ size ≤ 0 := by
      have : (0 : Int) < 50 * 1024 ^ 2 := by norm_num
      omega
    norm_num at h
    simp [jsk_cat, h, h0]
  · intro size h1 h2
    have h0 : ¬ size ≤ 0 := by omega
    have h3 : ¬ 50 * 1024 ^ 2 < size := by omega
    norm_num at h3
    simp [jsk_cat, h0, h3]
  · intro decode
    simp [jsk_curl]
  · intro data h
    simp [jsk_curl, h]
  · intro pathExists isDir size decode h
    cases pathExists
    · simp [jsk_cat] at h
    · cases isDir
      · by_cases h0 : size ≤ 0
        · simp [jsk_cat, h0] at h
        · by_cases h1 : 50 * 1024 ^ 2 < size
          · norm_num at h1
            simp [jsk_cat, h0, h1] at h
          · norm_num at h1
            cases decode with
            | decoded =>
              refine ⟨rfl, rfl, by omega, ?_, rfl⟩
              norm_num
              omega
            | unicodeError =>
              have h1' : ¬ (52428800 : Int) < size := by omega
              simp [jsk_cat, h0, h1'] at h
            | valueError msg =>
              have h1' : ¬ (52428800 : Int) < size := by omega
              simp [jsk_cat, h0, h1'] at h
      · simp [jsk_cat] at h
  · intro data decode h
    by_cases hd : data = []
    · simp [jsk_curl, hd] at h
    · cases decode with
      | decoded => exact ⟨hd, rfl⟩
      | unicodeError => simp [jsk_curl, hd] at h
      | valueError msg => simp [jsk_curl, hd] at h

/-- Witness for C7 at concrete sizes, bodies and decode results. -/
theorem claim_C7_witness :
    jsk_cat true false 0 .decoded = .noSizeRefused ∧
    jsk_cat true false (50 * 1024 ^ 2 + 1) .decoded = .tooLargeRefused ∧
    jsk_cat true false 10 .unicodeError = .encodingRefused ∧
    jsk_curl [] .decoded = .emptyRefused ∧
    jsk_curl [65] .unicodeError = .encodingRefused ∧
    ((0 : Int) < 10 ∧ (10 : Int) ≤ 50 * 1024 ^ 2 ∧
      DecodeResult.decoded = .decoded) ∧
    (([65] : List UInt8) ≠ [] ∧ DecodeResult.decoded = .decoded) := by
  refine ⟨claim_C7.1 0 .decoded (by decide),
    claim_C7.2.1 (50 * 1024 ^ 2 + 1) .decoded (by norm_num),
    claim_C7.2.2.1 10 (by decide) (by norm_num),
    claim_C7.2.2.2.1 .decoded,
    claim_C7.2.2.2.2.1 [65] (by decide), ?_, ?_⟩
  · have h := claim_C7.2.2.2.2.2.1 true false 10 .decoded (by decide)
    exact ⟨h.2.2.1, h.2.2.2.1, h.2.2.2.2⟩
  · exact claim_C7.2.2.2.2.2.2 [65] .decoded (by decide)

/-- C8: the cog-level check raises the not-owner rejection for every
invoker who is not a bot owner — and then the dispatch result is that
rejection whatever the subcommand body would have produced, so the body
never runs — while for an owner the check returns true and dispatch
runs exactly the body. -/
theorem claim_C8 :
    (cog_check false = .error "You must own this bot to use Jishaku.") ∧
    (cog_check true = .ok true) ∧
    (∀ (α : Type) (body : Except String α),
      dispatchWithCheck false body
        = .error "You must own this bot to use Jishaku.") ∧
    (∀ (α : Type) (body : Except String α),
      dispatchWithCheck true body = body) :=
  ⟨rfl, rfl, fun _ _ => rfl, fun _ _ => rfl⟩

/-- Each extension attempted by the `jsk_load` loop contributes exactly
one report line — a success line or a failure line carrying that item's
traceback — whatever the interleaving of failures, and independent of
the starting loaded set. -/
theorem jsk_load_go_forall (attempt : Bool → String → Option String) :
    ∀ (exts loaded : List String),
      List.Forall₂ (fun ext line =>
        (∃ icon, line = loadSuccessLine icon ext) ∨
        ∃ icon tb, line = loadFailLine icon ext tb)
        exts (jsk_load_go attempt loaded exts).1 := by
  intro exts
  induction exts with
  | nil => intro loaded; exact List.Forall₂.nil
  | cons ext rest ih =>
    intro loaded
    simp only [jsk_load_go]
    cases hq : attempt (loaded.contains ext) ext with
    | some tb =>
      simp only [hq]
      exact List.Forall₂.cons (Or.inr ⟨_, tb, rfl⟩) (ih loaded)
    | none =>
      simp only [hq]
      exact List.Forall₂.cons (Or.inl ⟨_, rfl⟩) (ih _)

/-- Each extension attempted by the `jsk_unload` loop contributes
exactly one report line. -/
theorem jsk_unload_go_forall (attempt : String → Option String) :
    ∀ exts : List String,
      List.Forall₂ (fun ext line =>
        line = loadSuccessLine outboxIcon ext ∨
        ∃ tb, line = loadFailLine outboxIcon ext tb)
        exts (jsk_unload_go attempt exts) := by
  intro exts
  induction exts with
  | nil => exact List.Forall₂.nil
  | cons ext rest ih =>
    simp only [jsk_unload_go]
    cases hq : attempt ext with
    | some tb => exact List.Forall₂.cons (Or.inr ⟨tb, rfl⟩) ih
    | none => exact List.Forall₂.cons (Or.inl rfl) ih

/-- C9: for every batch passed to `jsk load` or `jsk unload`, a failure
on one extension does not prevent the remaining extensions from being
attempted: every flattened item contributes exactly one line to the
single aggregated report — a success line, or a failure line carrying
that item's formatted traceback — and the loop (a total function of the
per-item outcomes: the `except` arm consumes each exception) never
propagates a per-item exception. -/
theorem claim_C9 :
    (∀ (attempt : Bool → String → Option String) (loaded : List String)
      (extensions : List (List String)),
      List.Forall₂ (fun ext line =>
        (∃ icon, line = loadSuccessLine icon ext) ∨
        ∃ icon tb, line = loadFailLine icon ext tb)
        extensions.flatten (jsk_load attempt loaded extensions)) ∧
    (∀ (attempt : String → Option String) (extensions : List (List String)),
      List.Forall₂ (fun ext line =>
        line = loadSuccessLine outboxIcon ext ∨
        ∃ tb, line = loadFailLine outboxIcon ext tb)
        extensions.flatten (jsk_unload attempt extensions)) ∧
    (∀ (attempt : Bool → String → Option String) (loaded : List String)
      (extensions : List (List String)),
      (jsk_load attempt loaded extensions).length
        = extensions.flatten.length) ∧
    (∀ (attempt : String → Option String) (extensions : List (List String)),
      (jsk_unload attempt extensions).length
        = extensions.flatten.length) := by
  refine ⟨?_, ?_, ?_, ?_⟩
  · intro attempt loaded extensions
    exact jsk_load_go_forall attempt extensions.flatten loaded
  · intro attempt extensions
    exact jsk_unload_go_forall attempt extensions.flatten
  · intro attempt loaded extensions
    exact (jsk_load_go_forall attempt extensions.flatten loaded).length_eq.symm
  · intro attempt extensions
    exact (jsk_unload_go_forall attempt extensions.flatten).length_eq.symm

/-- Replacing a pattern that occurs nowhere in the text leaves the text
unchanged. -/
theorem pyReplaceAux_of_absent (pat rep : List Char) :
    ∀ (fuel : Nat) (s : List Char), ¬ pat <:+: s →
      pyReplaceAux pat rep fuel s = s := by
  intro fuel
  induction fuel with
  | zero => intro s _; rfl
  | succ fuel ih =>
    intro s h
    have hpre : pat.isPrefixOf s = false := by
      rcases hb : pat.isPrefixOf s with _ | _
      · rfl
      · exact absurd (List.isPrefixOf_iff_prefix.mp hb).isInfix h
    simp only [pyReplaceAux, hpre, Bool.false_eq_true, if_false]
    cases s with
    | nil => rfl
    | cons c cs =>
      have hcs : ¬ pat <:+: cs := fun hin => h (List.infix_cons hin)
      show c :: pyReplaceAux pat rep fuel cs = c :: cs
      rw [ih cs hcs]

/-- A pattern longer than the text occurs nowhere in it; in particular
a multi-character token is no substring of the one-character zero-width
space, so the token replacement leaves it unchanged. -/
theorem pyStrReplace_zwsp (token : String) (htok : 1 < token.length) :
    pyStrReplace ZWSP token "[NO_TOKEN]" = ZWSP := by
  have hne : token.data ≠ [] := by
    intro he
    rw [String.length, he] at htok
    simp at htok
  have hni : ¬ token.data <:+: ZWSP.data := by
    intro hin
    have hlen := hin.length_le
    have hz : ZWSP.data.length = 1 := by decide
    rw [String.length] at htok
    omega
  simp only [pyStrReplace, hne, if_false]
  rw [pyReplaceAux_of_absent token.data _ _ ZWSP.data hni]

/-- C10: for every plain-text result of length at most 2000 produced by
`jsk py`: invoked in a guild, the message sent is the result with every
occurrence of the bot's HTTP token replaced by `"[NO_TOKEN]"`; invoked
outside a guild, the result is sent verbatim with no replacement; and a
result that is empty or whitespace-only is sent as a single zero-width
space (for any real token, i.e. one of more than one character). -/
theorem claim_C10 :
    (∀ (token result : String), result.length ≤ 2000 → pyStrip result ≠ "" →
      jsk_python_render token true result
        = .message (pyStrReplace result token "[NO_TOKEN]")) ∧
    (∀ (token result : String), result.length ≤ 2000 → pyStrip result ≠ "" →
      jsk_python_render token false result = .message result) ∧
    (∀ (token result : String) (inGuild : Bool), result.length ≤ 2000 →
      pyStrip result = "" → 1 < token.length →
      jsk_python_render token inGuild result = .message ZWSP) := by
  refine ⟨?_, ?_, ?_⟩
  · intro token result h hne
    have h2 : ¬ 2000 < result.length := Nat.not_lt.mpr h
    simp [jsk_python_render, h2, hne]
  · intro token result h hne
    have h2 : ¬ 2000 < result.length := Nat.not_lt.mpr h
    simp [jsk_python_render, h2, hne]
  · intro token result inGuild h hws htok
    have h2 : ¬ 2000 < result.length := Nat.not_lt.mpr h
    cases inGuild
    · simp [jsk_python_render, h2, hws]
    · simp [jsk_python_render, h2, hws, pyStrReplace_zwsp token htok]

/-- Witness for C10 at a concrete token and results, including a
result consisting of one no-break space, which Python's `strip()`
treats as whitespace. -/
theorem claim_C10_witness :
    jsk_python_render "tok" true "hello tok"
      = .message (pyStrReplace "hello tok" "tok" "[NO_TOKEN]") ∧
    jsk_python_render "tok" false "hello tok" = .message "hello tok" ∧
    jsk_python_render "tok" true "  " = .message ZWSP ∧
    jsk_python_render "tok" false "\u00a0" = .message ZWSP :=
  ⟨claim_C10.1 "tok" "hello tok" (by decide) (by decide),
    claim_C10.2.1 "tok" "hello tok" (by decide) (by decide),
    claim_C10.2.2 "tok" "  " true (by decide) (by decide) (by decide),
    claim_C10.2.2 "tok" "\u00a0" false (by decide) (by decide) (by decide)⟩

/-- C1: the cog's `scope` property returns the single retained scope when
`retain` is true and a freshly constructed empty scope when `retain` is
false; a binding written by one REPL invocation is visible to a
subsequent invocation (possibly after a `jsk retain` toggle in between)
if and only if retention was enabled at both times; and after retention
is disabled via `jsk retain off`, the scopes handed to all later
invocations are exactly those that would arise had the retained scope
been empty, so no previously retained binding is ever visible again. -/
theorem claim_C1 :
    (∀ st : CogState, st.retain = true → st.scope = st.scopeMap) ∧
    (∀ st : CogState, st.retain = false → st.scope = ScopeMap.empty) ∧
    (∀ (st : CogState) (k : String) (v : Nat) (b : Bool),
      (((st.step (.invoke (fun s => s.insert k v))).step (.retainSet b)).scope.lookup k
          = some v)
        ↔ (st.retain = true ∧ b = true)) ∧
    (∀ (st : CogState) (ops : List CogOp), st.retain = true →
      (st.step (.retainSet false)).scopeTrace ops
        = (CogState.mk false ScopeMap.empty).scopeTrace ops) := by
  refine ⟨?_, ?_, ?_, ?_⟩
  · intro st h
    simp [CogState.scope, h]
  · intro st h
    simp [CogState.scope, h]
  · intro st k v b
    obtain ⟨r, m⟩ := st
    cases r <;> cases b <;>
      simp [CogState.step, CogState.scope, ScopeMap.lookup, ScopeMap.insert,
        ScopeMap.empty, List.lookup]
  · intro st ops h
    obtain ⟨r, m⟩ := st
    cases h
    simp only [CogState.step, Bool.true_eq_false, if_false, if_true]
    exact CogState.scopeTrace_indep ops m ScopeMap.empty

/-- Witness for C1 at concrete inputs. -/
theorem claim_C1_witness :
    (CogState.mk true [("x", 5)]).scope = [("x", 5)] ∧
    (CogState.mk false [("x", 5)]).scope = ScopeMap.empty ∧
    ((((CogState.mk true []).step (.invoke (fun s => s.insert "k" 7))).step
        (.retainSet true)).scope.lookup "k" = some 7) ∧
    ((CogState.mk true [("x", 5)]).step (.retainSet false)).scopeTrace
        [.invoke (fun s => s.insert "y" 1)]
      = (CogState.mk false ScopeMap.empty).scopeTrace
        [.invoke (fun s => s.insert "y" 1)] :=
  ⟨claim_C1.1 _ rfl, claim_C1.2.1 _ rfl,
    (claim_C1.2.2.1 _ "k" 7 true).mpr ⟨rfl, rfl⟩,
    claim_C1.2.2.2 _ _ rfl⟩

/-- C2: after every REPL invocation (`jsk py` and `jsk py_inspect`),
whether the executor completes normally or raises, exactly the injected
context bindings — the keys of the `arg_dict`, which include the
last-result binding `"_"` — are removed from the scope used, and every
other binding in that scope is left exactly as the executor left it, so
only user-introduced bindings persist. -/
theorem claim_C2 :
    ∀ (scope ctxVars : ScopeMap) (lastResult : Nat)
      (ex : ScopeMap → ScopeMap → ExecOutcome),
      (jsk_python_scope_after scope ctxVars lastResult ex
        = jsk_python_inspect_scope_after scope ctxVars lastResult ex) ∧
      (∀ k, k ∈ (mkArgDict ctxVars lastResult).keys →
        (jsk_python_scope_after scope ctxVars lastResult ex).lookup k = none) ∧
      (∀ k, k ∉ (mkArgDict ctxVars lastResult).keys →
        (jsk_python_scope_after scope ctxVars lastResult ex).lookup k
          = (ex scope (mkArgDict ctxVars lastResult)).scopeAtExit.lookup k) ∧
      (jsk_python_scope_after scope ctxVars lastResult ex).lookup "_" = none := by
  intro scope ctxVars lastResult ex
  refine ⟨rfl, ?_, ?_, ?_⟩
  · intro k hk
    simp [jsk_python_scope_after, lookup_clear_intersection, hk]
  · intro k hk
    simp [jsk_python_scope_after, lookup_clear_intersection, hk]
  · have h : "_" ∈ (mkArgDict ctxVars lastResult).keys := by
      simp [mkArgDict, ScopeMap.insert, ScopeMap.keys]
    simp [jsk_python_scope_after, lookup_clear_intersection, h]

/-- Witness for C2 at a concrete invocation whose executor raises after
injecting the context bindings and adding one user binding. -/
theorem claim_C2_witness :
    ((jsk_python_scope_after [("a", 1)] [("ctx", 2)] 3
        (fun s d => .raised (d ++ s ++ [("user", 9)]))).lookup "ctx" = none) ∧
    ((jsk_python_scope_after [("a", 1)] [("ctx", 2)] 3
        (fun s d => .raised (d ++ s ++ [("user", 9)]))).lookup "user"
      = ((fun (s d : ScopeMap) => ExecOutcome.raised (d ++ s ++ [("user", 9)]))
          [("a", 1)] (mkArgDict [("ctx", 2)] 3)).scopeAtExit.lookup "user") ∧
    ((jsk_python_scope_after [("a", 1)] [("ctx", 2)] 3
        (fun s d => .raised (d ++ s ++ [("user", 9)]))).lookup "_" = none) := by
  have h := claim_C2 [("a", 1)] [("ctx", 2)] 3
    (fun s d => .raised (d ++ s ++ [("user", 9)]))
  exact ⟨h.2.1 "ctx" (by decide), h.2.2.1 "user" (by decide), h.2.2.2⟩

end Jishaku
